import Mathlib

/-!
Verification of the SNN-toolbox core (caffe model extractor and pyNN target
simulator) against its specification.  The Python sources
`snntoolbox/model_libs/caffe_input_lib.py` and
`snntoolbox/simulation/target_simulators/pyNN_target_sim.py` are shallowly
embedded: machine floats become rationals, numpy arrays become lists or index
functions, strings become `List Char` where character-level reasoning is
needed, and the file system becomes an explicit map from paths to contents.

The file is organized as definitions first (grouped by the source function
they embed), followed by the theorems.
-/

namespace SNNToolbox

/-! ## Batch-normalization absorption (caffe_input_lib.extract) -/

/-- Dot product of a row of the affine weight matrix against an input vector,
truncating at the shorter list. -/
def dot : List ℚ → List ℚ → ℚ
  | [], _ => 0
  | _, [] => 0
  | a :: as, b :: bs => a * b + dot as bs

/-- Modelled from the spec: `absorb_bn` lives in
`snntoolbox.model_libs.common`, which is not part of the sources; only its
caller in `caffe_input_lib.extract` is.  Folds the normalization parameters
gamma (scale), beta (shift) and mu (running mean) into one row of the affine
layer, where the parameter `d` stands for the denominator sqrt(sigma^2 + eps):
`W1 = W * gamma / d`, `b1 = (b - mu) * gamma / d + beta`. -/
def absorb_bn_row (w : List ℚ) (b gamma beta mean d : ℚ) : List ℚ × ℚ :=
  (w.map (fun wi => wi * (gamma / d)), (b - mean) * (gamma / d) + beta)

/-- Modelled from the spec: the batch-normalization transform applied to one
pre-activation value `z`, with `d` standing for sqrt(sigma^2 + eps):
`BN(z) = (z - mu) * gamma / d + beta`. -/
def batchnorm (gamma beta mean d z : ℚ) : ℚ := (z - mean) * (gamma / d) + beta

/-- The weight handling of `caffe_input_lib.extract` for an affine (`Dense` or
`Convolution2D`) layer, restricted to one output row: when the next native
layer is a batch-normalization layer the raw weight/bias are replaced by the
folded parameters, otherwise they are kept unchanged. -/
def extractAffineRow (nextIsBN : Bool) (w : List ℚ) (b gamma beta mean d : ℚ) :
    List ℚ × ℚ :=
  if nextIsBN then absorb_bn_row w b gamma beta mean d else (w, b)

/-! ## Dense connection construction (SNN.build_dense) -/

/-- The connection list built by `SNN.build_dense` when `flatten_shapes` is
empty: one entry `(i, j, weight[i, j], delay)` for every weight-matrix entry,
in row-major order. -/
def denseConnections (rows cols : ℕ) (weight : ℕ → ℕ → ℚ) (delay : ℚ) :
    List (ℕ × ℕ × ℚ × ℚ) :=
  (List.range rows).flatMap fun i =>
    (List.range cols).map fun j => (i, j, weight i j, delay)

/-- The configured data layout (`self.data_format` in the source). -/
inductive DataFormat
  | channels_first
  | channels_last
  deriving Repr, DecidableEq

/-- The source-index remap of `SNN.build_dense` when one flatten record is
pending.  The recorded shape `(a, b, c)` is read as `(y_in, x_in, f_in)`
under `channels_last` and as `(f_in, y_in, x_in)` under `channels_first`;
the flat index `i` is then decomposed with the channel axis innermost
(`f = i % f_in`, `y = i / (f_in * x_in)`, `x = (i / f_in) % x_in`) and
reassembled as `f * x_in * y_in + x_in * y + x`. -/
def flattenRemap (fmt : DataFormat) (shape : ℕ × ℕ × ℕ) (i : ℕ) : ℕ :=
  let p := match fmt with
    | .channels_last => shape
    | .channels_first => (shape.2.1, shape.2.2, shape.1)
  let y_in := p.1
  let x_in := p.2.1
  let f_in := p.2.2
  let f := i % f_in
  let y := i / (f_in * x_in)
  let x := (i / f_in) % x_in
  f * x_in * y_in + x_in * y + x

/-- The remap described by the claim: decompose `i` into (channel `f`, row
`y`, column `x`) by inverting the *original configured layout's*
linearization, then recompute the canonical linear index
`f * width * height + y * width + x`.  Under `channels_last` the layout is
`i = y * (x_in * f_in) + x * f_in + f`; under `channels_first` it is
`i = f * (y_in * x_in) + y * x_in + x`. -/
def layoutRemap (fmt : DataFormat) (shape : ℕ × ℕ × ℕ) (i : ℕ) : ℕ :=
  match fmt with
  | .channels_last =>
      let y_in := shape.1
      let x_in := shape.2.1
      let f_in := shape.2.2
      let f := i % f_in
      let y := i / (f_in * x_in)
      let x := (i / f_in) % x_in
      f * x_in * y_in + x_in * y + x
  | .channels_first =>
      let y_in := shape.2.1
      let x_in := shape.2.2
      let f := i / (y_in * x_in)
      let y := (i / x_in) % y_in
      let x := i % x_in
      f * x_in * y_in + x_in * y + x

/-- The connection list built by `SNN.build_dense` when exactly one flatten
record with shape `shape` is pending: the source index of each entry is the
remapped index, the weight is `weight[i, j]` and the delay is fixed. -/
def denseFlattenConnections (fmt : DataFormat) (shape : ℕ × ℕ × ℕ)
    (rows cols : ℕ) (weight : ℕ → ℕ → ℚ) (delay : ℚ) :
    List (ℕ × ℕ × ℚ × ℚ) :=
  (List.range rows).flatMap fun i =>
    (List.range cols).map fun j => (flattenRemap fmt shape i, j, weight i j, delay)

/-! ## Populations and bias injection (SNN.set_biases) -/

/-- A pyNN population as the builder observes it: its label, its size, a
descriptor of its cell type, and the per-neuron injected offset current
`i_offset`. -/
structure Population where
  label : String
  size : ℕ
  celltype : String
  i_offset : List ℚ
  deriving Repr, DecidableEq

/-- Apply `f` to the last element of a list (`layers[-1]` in the source). -/
def updateLast (f : Population → Population) : List Population → List Population
  | [] => []
  | [p] => [f p]
  | p :: q :: ps => p :: updateLast f (q :: ps)

/-- `SNN.set_biases`: if no bias entry is nonzero (`not np.any(biases)`) the
call returns without touching anything; otherwise the last population's
`i_offset` is set elementwise to `biases * dt / 100` (the source writes
`biases * self._dt / 1e2`). -/
def set_biases (layers : List Population) (biases : List ℚ) (dt : ℚ) :
    List Population :=
  if biases.any (fun b => b != 0) then
    updateLast (fun p => { p with i_offset := biases.map (fun b => b * dt / 100) })
      layers
  else layers

/-! ## Layer labels (caffe_input_lib.extract) and get_shape_from_label
(pyNN_target_sim) -/

/-- The decimal digit character for `d < 10` (`'0' + d`). -/
def digit (d : ℕ) : Char := Char.ofNat (48 + d)

/-- Numeric value of a decimal digit character. -/
def charVal (c : Char) : ℕ := c.toNat - 48

/-- Decimal representation of a natural number, as Python's `str`. -/
def natChars (n : ℕ) : List Char :=
  if n < 10 then [digit n]
  else natChars (n / 10) ++ [digit (n % 10)]
  decreasing_by exact Nat.div_lt_self (by omega) (by norm_num)

/-- Value of a decimal digit string continuing from accumulator `a`. -/
def charsValFrom (a : ℕ) (l : List Char) : ℕ :=
  l.foldl (fun acc c => 10 * acc + charVal c) a

/-- Python's `int` on a decimal digit string. -/
def charsVal (l : List Char) : ℕ := charsValFrom 0 l

/-- Python's `str.split(sep)` on character lists. -/
def splitOnC (sep : Char) : List Char → List (List Char)
  | [] => [[]]
  | c :: cs =>
      if c = sep then [] :: splitOnC sep cs
      else (c :: (splitOnC sep cs).headD []) :: (splitOnC sep cs).tail

/-- The shape segment of a layer label built by `caffe_input_lib.extract`:
`'{os[1]}'` when the output shape has length 2, and
`'{os[1]}x{os[2]}x{os[3]}'` otherwise. -/
def shapeSeg (os : List ℕ) : List Char :=
  if os.length = 2 then natChars (os.getD 1 0)
  else natChars (os.getD 1 0) ++ 'x' ::
        (natChars (os.getD 2 0) ++ 'x' :: natChars (os.getD 3 0))

/-- `shape_string` of `caffe_input_lib.extract`: an underscore followed by the
shape segment. -/
def shape_string (os : List ℕ) : List Char := '_' :: shapeSeg os

/-- `num_str` of `caffe_input_lib.extract`: the index as decimal digits,
zero-padded on the left when the index is a single digit. -/
def num_str (layer_num : ℕ) : List Char :=
  if layer_num > 9 then natChars layer_num else '0' :: natChars layer_num

/-- The label generated by `caffe_input_lib.extract`:
`num_str + layer_type + shape_string`. -/
def layerLabel (layer_num : ℕ) (layer_type : List Char) (os : List ℕ) :
    List Char :=
  num_str layer_num ++ layer_type ++ shape_string os

/-- `get_shape_from_label` of `pyNN_target_sim`:
`[int(i) for i in label.split('_')[1].split('x')]`. -/
def get_shape_from_label (label : List Char) : List ℕ :=
  (splitOnC 'x' ((splitOnC '_' label).getD 1 [])).map charsVal

/-- `get_shape_from_label` on Lean strings. -/
def getShapeFromLabel (s : String) : List ℕ := get_shape_from_label s.data

/-! ## The builder state machine (SNN.add_layer, SNN.build_convolution,
SNN.build_dense) -/

/-- One component of a Keras `ZeroPadding` layer's `padding` attribute: a bare
integer or a pair (padding before/after one axis). -/
inductive PadElem
  | int (n : ℤ)
  | pair (a b : ℤ)
  deriving Repr, DecidableEq

/-- The fatal errors raised by the builder. -/
inductive BuildError
  | unsupportedPadding
  | unsupportedBorderMode
  | unconsumedFlattenRecord
  | shapeMismatch
  deriving Repr, DecidableEq

/-- The mutable builder state: the populations built so far, the pending
flatten records (`self.flatten_shapes`) and the pending-padding flag
(`self.change_padding`). -/
structure BuilderState where
  layers : List Population
  flatten_shapes : List (String × List ℕ)
  change_padding : Bool
  deriving Repr, DecidableEq

/-- The layer descriptions `SNN.add_layer` dispatches on: a `ZeroPadding`
layer with its padding attribute, a `Flatten` layer with its name, or any
other layer with its name and flattened non-batch output size. -/
inductive LayerDesc
  | zeroPadding (padding : List PadElem)
  | flatten (name : String)
  | other (name : String) (outSize : ℕ)
  deriving Repr, DecidableEq

/-- The label of `self.layers[-1]`. -/
def lastLabel (layers : List Population) : String :=
  (layers.getLast?.map Population.label).getD ""

/-- `SNN.add_layer`: a `ZeroPadding` layer whose padding components are all
`1` or `(1, 1)` (the source test `set(padding).issubset((1, (1, 1)))`) only
sets the pending-padding flag, any other padding raises; a `Flatten` layer
only appends `(layer.name, get_shape_from_label(self.layers[-1].label))` to
the flatten records; any other layer appends a population labelled with the
layer's name. -/
def add_layer (st : BuilderState) : LayerDesc → Except BuildError BuilderState
  | .zeroPadding padding =>
      if padding.all (fun e => e == .int 1 || e == .pair 1 1) then
        .ok { st with change_padding := true }
      else .error .unsupportedPadding
  | .flatten name =>
      .ok { st with flatten_shapes :=
        st.flatten_shapes ++ [(name, getShapeFromLabel (lastLabel st.layers))] }
  | .other name outSize =>
      .ok { st with layers :=
        st.layers ++ [{ label := name, size := outSize,
                        celltype := "IF_curr_exp", i_offset := [] }] }

/-- The pending-padding consumption at the top of `SNN.build_convolution`:
with the flag set, a `'valid'` border mode becomes `'ZeroPadding'` and the
flag is cleared; any other border mode raises.  Returns the new state and the
layer's (possibly rewritten) border mode. -/
def consume_padding (st : BuilderState) (border : String) :
    Except BuildError (BuilderState × String) :=
  if st.change_padding then
    if border = "valid" then
      .ok ({ st with change_padding := false }, "ZeroPadding")
    else .error .unsupportedBorderMode
  else .ok (st, border)

/-- The connection-list construction of `SNN.build_dense` over the builder
state: with exactly one pending flatten record the remapped list is built and
the record consumed; with more than one pending record the build raises
before constructing any entry; with none pending the plain list is built.
A pending record whose shape is not a length-3 list fails to destructure
(`y_in, x_in, f_in = shape` in the source). -/
def build_dense_step (fmt : DataFormat) (st : BuilderState)
    (rows cols : ℕ) (weight : ℕ → ℕ → ℚ) (delay : ℚ) :
    Except BuildError (List (ℕ × ℕ × ℚ × ℚ) × BuilderState) :=
  if st.flatten_shapes.length = 1 then
    match st.flatten_shapes with
    | [(_, [a, b, c])] =>
        .ok (denseFlattenConnections fmt (a, b, c) rows cols weight delay,
             { st with flatten_shapes := [] })
    | _ => .error .shapeMismatch
  else if st.flatten_shapes.length > 1 then .error .unconsumedFlattenRecord
  else .ok (denseConnections rows cols weight delay, st)

/-- A builder state right after a convolution layer of output shape
(2, 3, 4), as reached during a concrete build. -/
def exState : BuilderState :=
  { layers := [⟨"00Conv2D_2x3x4", 24, "IF_curr_exp", []⟩],
    flatten_shapes := [], change_padding := false }

/-- `exState` after two consecutive Flatten layers. -/
def exState2 : BuilderState :=
  { layers := [⟨"00Conv2D_2x3x4", 24, "IF_curr_exp", []⟩],
    flatten_shapes := [("f1", [2, 3, 4]), ("f2", [2, 3, 4])],
    change_padding := false }

/-! ## File writes and the overwrite policy (SNN.add_input_layer,
SNN.save_assembly, SNN.save_connections, SNN.save_biases) -/

/-- The file system: a map from paths to file contents. -/
def FS : Type := String → Option String

/-- Write `content` at `path` (Python `open(path, 'w')` plus `writelines`). -/
def fsWrite (fs : FS) (path content : String) : FS :=
  fun p => if p = path then some content else fs p

/-- `os.path.join`. -/
def pathJoin (dir name : String) : String := dir ++ "/" ++ name

/-- A write guarded by the overwrite policy, as in `SNN.save_assembly`,
`SNN.save_connections` and `SNN.save_biases`: performed only when the config's
`overwrite` flag is set or `confirm_overwrite` (a user prompt, modelled as an
oracle indexed by path) returns true. -/
def guardedWrite (overwrite : Bool) (confirmed : String → Bool) (fs : FS)
    (path content : String) : FS :=
  if overwrite || confirmed path then fsWrite fs path content else fs

/-- The file effect of `SNN.add_input_layer`: the generated replay script is
written to `self.output_script_path` with mode `'w'`, with no overwrite
check. -/
def add_input_layer_write (fs : FS) (scriptPath content : String) : FS :=
  fsWrite fs scriptPath content

/-- The file effect of `SNN.save_assembly`: one guarded write of the pickled
assembly descriptor. -/
def save_assembly_write (overwrite : Bool) (confirmed : String → Bool)
    (fs : FS) (filepath content : String) : FS :=
  guardedWrite overwrite confirmed fs filepath content

/-- The file effect of `SNN.save_connections`: one guarded write per
projection, the file named after the destination population. -/
def save_connections_writes (overwrite : Bool) (confirmed : String → Bool)
    (fs : FS) (files : List (String × String)) : FS :=
  files.foldl (fun acc f => guardedWrite overwrite confirmed acc f.1 f.2) fs

/-- Does `needle` occur as a contiguous substring (Python `in`)? -/
def containsSub (needle : List Char) : List Char → Bool
  | [] => needle.isEmpty
  | l@(_ :: rest) => needle.isPrefixOf l || containsSub needle rest

/-- The file effect of `SNN.save_biases`: for each layer a guarded write of
`<label>_biases`; inside the guard, input layers (label containing `'Input'`)
and layers without a bias vector are skipped (the source's `continue` on
`'Input' in layer.label`, on `KeyError` and on scalar `i_offset`, modelled
here as an empty `i_offset`).  `render` stands for `np.savetxt`. -/
def save_biases_writes (overwrite : Bool) (confirmed : String → Bool)
    (fs : FS) (layers : List Population) (path : String)
    (render : List ℚ → String) : FS :=
  layers.foldl (fun acc p =>
    let filepath := pathJoin path (p.label ++ "_biases")
    if overwrite || confirmed filepath then
      if containsSub "Input".data p.label.data then acc
      else if p.i_offset = [] then acc
      else fsWrite acc filepath (render p.i_offset)
    else acc) fs

/-- A file system holding one file: a previously generated replay script at
`model.py` with contents `old`. -/
def fs0 : FS := fun p => if p = "model.py" then some "old" else none

/-- A file system holding only a replay script at `model.py` with contents
`S`; in particular no assembly and no connection files. -/
def fs1 : FS := fun p => if p = "model.py" then some "S" else none

/-! ## Assembly serialization (SNN.save_assembly / SNN.load_assembly) -/

/-- One population's entry in the pickled assembly dictionary: its size, its
cell-type descriptor, and its bias vector except for the input layer. -/
structure SavedData where
  size : ℕ
  celltype : String
  i_offset : Option (List ℚ)
  deriving Repr, DecidableEq

/-- The pickled assembly descriptor: one entry per population keyed by label,
the ordered label list, and the population count. -/
structure Assembly where
  entries : List (String × SavedData)
  labels : List String
  size : ℕ
  deriving Repr, DecidableEq

/-- The per-population data stored by `SNN.save_assembly`: size and cell-type
descriptor always, the bias vector only when the label is not
`'InputLayer'`. -/
def savedOf (p : Population) : SavedData :=
  { size := p.size, celltype := p.celltype,
    i_offset := if p.label ≠ "InputLayer" then some p.i_offset else none }

/-- `SNN.save_assembly` (its serialization content): for every population an
entry with its size and cell type, plus `i_offset` when the label is not
`'InputLayer'`; the ordered label list; and the number of populations. -/
def save_assembly (layers : List Population) : Assembly :=
  { entries := layers.map fun p => (p.label, savedOf p),
    labels := layers.map Population.label,
    size := layers.length }

/-- `SNN.load_assembly`: for each label in the saved order, a population is
created with the saved size and cell type, and its `i_offset` is set from the
saved entry when the label is not `'InputLayer'` (a fresh population starts
from the cell type's default, modelled as `[]`). -/
def load_assembly (a : Assembly) : List Population :=
  a.labels.map fun label =>
    match a.entries.lookup label with
    | some d =>
        { label := label, size := d.size, celltype := d.celltype,
          i_offset := if label ≠ "InputLayer" then d.i_offset.getD [] else [] }
    | none => { label := label, size := 0, celltype := "", i_offset := [] }

/-- A two-population network: the input layer and one dense layer with a
nonzero bias vector. -/
def demoLayers : List Population :=
  [⟨"InputLayer", 4, "SpikeSourcePoisson", []⟩,
   ⟨"01Dense_10", 10, "IF_curr_exp", [1, -2]⟩]

/-! ## Loading a built network (SNN.load) -/

/-- The fatal assertion failures of `SNN.load` / `SNN.load_assembly`. -/
inductive LoadError
  | assemblyMissing
  | connectionsMissing
  deriving Repr, DecidableEq

/-- The result of `SNN.load`: either the simulator handle and layer list
produced by executing the replay script, or the populations reconstructed
from the assembly and connection files. -/
inductive LoadResult (α : Type)
  | fromScript (handle : α)
  | fromAssembly (layers : List Population)

/-- `SNN.load`: when a file exists at the output-script path, the network is
reconstructed solely by executing that script (`get_snn_from_script`,
modelled by the interpretation `runScript`) and the method returns.
Otherwise the assembly file is read (`load_assembly` asserts it exists,
`readAssembly` models unpickling) and for every population after the first
the connection file named after its label is asserted to exist. -/
def SNN_load {α : Type} (runScript : String → α)
    (readAssembly : String → List Population) (fs : FS)
    (scriptPath path filename : String) : Except LoadError (LoadResult α) :=
  match fs scriptPath with
  | some content => .ok (.fromScript (runScript content))
  | none =>
      match fs (pathJoin path filename) with
      | none => .error .assemblyMissing
      | some acontent =>
          let layers := readAssembly acontent
          if layers.tail.all (fun p => (fs (pathJoin path p.label)).isSome)
          then .ok (.fromAssembly layers)
          else .error .connectionsMissing

/-! ## Theorems -/

theorem dot_map_mul (c : ℚ) : ∀ (w x : List ℚ),
    dot (w.map (fun wi => wi * c)) x = dot w x * c
  | [], x => by simp [dot]
  | _ :: _, [] => by simp [dot]
  | a :: as, b :: bs => by
      simp only [List.map_cons, dot, dot_map_mul c as bs]; ring

/-- C1: for an affine layer whose next native layer is a batch-normalization
layer, the extractor replaces weight and bias by the folded parameters
`W1 = W * gamma / d`, `b1 = (b - mu) * gamma / d + beta` (with `d` the
denominator sqrt(sigma^2 + eps)), and consequently for every input `x` the
folded affine output `W1 . x + b1` equals the normalization applied to the
unfolded output `W . x + b`. -/
theorem extract_absorbs_bn (w : List ℚ) (b gamma beta mean d : ℚ)
    (x : List ℚ) :
    extractAffineRow true w b gamma beta mean d
      = absorb_bn_row w b gamma beta mean d ∧
    dot (extractAffineRow true w b gamma beta mean d).1 x
        + (extractAffineRow true w b gamma beta mean d).2
      = batchnorm gamma beta mean d (dot w x + b) := by
  refine ⟨rfl, ?_⟩
  simp only [extractAffineRow, if_pos, absorb_bn_row, batchnorm, dot_map_mul]
  ring

/-- C4: the plain dense connection list has exactly `rows * cols` entries, the
entry for source `i` and target `j` carries exactly `weight[i, j]`, and every
entry carries the fixed configured delay. -/
theorem build_dense_plain_spec (rows cols : ℕ) (weight : ℕ → ℕ → ℚ)
    (delay : ℚ) :
    (denseConnections rows cols weight delay).length = rows * cols ∧
    (∀ i j q d, (i, j, q, d) ∈ denseConnections rows cols weight delay ↔
      i < rows ∧ j < cols ∧ q = weight i j ∧ d = delay) := by
  constructor
  · simp [denseConnections, List.length_flatMap, Function.comp_def,
      Finset.sum_const]
  · intro i j q d
    simp only [denseConnections, List.mem_flatMap, List.mem_map,
      List.mem_range, Prod.mk.injEq]
    constructor
    · rintro ⟨i', hi', j', hj', hi, hj, hq, hd⟩
      exact ⟨hi ▸ hi', hj ▸ hj', by rw [← hq, hi, hj], hd.symm⟩
    · rintro ⟨hi, hj, hq, hd⟩
      exact ⟨i, hi, j, hj, rfl, rfl, hq.symm, hd.symm⟩

theorem updateLast_append (f : Population → Population)
    (init : List Population) (p : Population) :
    updateLast f (init ++ [p]) = init ++ [f p] := by
  induction init with
  | nil => rfl
  | cons q qs ih =>
      cases qs with
      | nil => rfl
      | cons r rs => simpa [updateLast] using ih

/-- C9: `set_biases` applied to an all-zero bias vector leaves the layer list
(and in particular the last population's `i_offset`) unchanged, and applied to
a vector with at least one nonzero entry it sets the last population's
`i_offset` elementwise to `biases * dt / 100`. -/
theorem set_biases_spec (init : List Population) (p : Population)
    (biases : List ℚ) (dt : ℚ) :
    ((∀ b ∈ biases, b = 0) →
      set_biases (init ++ [p]) biases dt = init ++ [p]) ∧
    ((∃ b ∈ biases, b ≠ 0) →
      set_biases (init ++ [p]) biases dt
        = init ++ [{ p with i_offset := biases.map (fun b => b * dt / 100) }]) := by
  constructor
  · intro hzero
    have : biases.any (fun b => b != 0) = false := by
      simp only [List.any_eq_false, bne_iff_ne, ne_eq, not_not]
      exact hzero
    simp [set_biases, this]
  · intro hnz
    have : biases.any (fun b => b != 0) = true := by
      simp only [List.any_eq_true, bne_iff_ne]
      exact hnz
    simp [set_biases, this, updateLast_append]

/-- Witness for C9 at a concrete input: biases `[0, 2]` with `dt = 4` rewrite
the last population's offset current to `[0, 2 * 4 / 100]`, while `[0, 0]` is
a no-op. -/
theorem set_biases_spec_witness :
    set_biases [⟨"L", 2, "IF_curr_exp", [5, 5]⟩] [0, 2] 4
      = [⟨"L", 2, "IF_curr_exp", [0 * 4 / 100, 2 * 4 / 100]⟩] ∧
    set_biases [⟨"L", 2, "IF_curr_exp", [5, 5]⟩] [0, 0] 4
      = [⟨"L", 2, "IF_curr_exp", [5, 5]⟩] := by
  constructor
  · have h := (set_biases_spec [] ⟨"L", 2, "IF_curr_exp", [5, 5]⟩ [0, 2] 4).2
      ⟨2, by simp, by norm_num⟩
    simpa using h
  · have h := (set_biases_spec [] ⟨"L", 2, "IF_curr_exp", [5, 5]⟩ [0, 0] 4).1
      (by intro b hb; simp only [List.mem_cons, List.not_mem_nil, or_false] at hb
          rcases hb with h | h <;> exact h)
    simpa using h

/-- C3 (divergence exhibited): under `channels_last` the remap of
`SNN.build_dense` coincides with decomposition under the original layout
followed by canonical reindexing, but under `channels_first` it does not:
for the pending shape (2, 3, 4) = (channels, height, width) and linear input
index 1, the code produces source index 12 (it always decomposes with the
channel axis innermost), while decomposition under the channels_first layout
followed by canonical reindexing yields 1; accordingly the second emitted
connection entry carries source index 12 instead of 1 (weights and delay are
carried as claimed). -/
theorem flatten_remap_channels_first_bug :
    (∀ shape i, flattenRemap DataFormat.channels_last shape i
        = layoutRemap DataFormat.channels_last shape i) ∧
    flattenRemap DataFormat.channels_first (2, 3, 4) 1 = 12 ∧
    layoutRemap DataFormat.channels_first (2, 3, 4) 1 = 1 ∧
    denseFlattenConnections DataFormat.channels_first (2, 3, 4) 2 1
        (fun i _ => (i : ℚ)) 5
      = [(0, 0, 0, 5), (12, 0, 1, 5)] := by
  refine ⟨fun shape i => rfl, rfl, rfl, ?_⟩
  simp [denseFlattenConnections, List.range_succ, flattenRemap]

/-- C7: `add_layer` on a `ZeroPadding` layer never creates a population: with
symmetric single-cell padding on all sides (every component `1` or `(1, 1)`)
it only sets the pending-padding flag; any other padding configuration raises
`NotImplementedError`.  `build_convolution` consumes a set flag: a `'valid'`
border mode becomes explicit `'ZeroPadding'` and the flag is cleared, while
any other border mode combined with a set flag raises. -/
theorem zero_padding_spec (st : BuilderState) (padding : List PadElem)
    (border : String) :
    ((∀ e ∈ padding, e = .int 1 ∨ e = .pair 1 1) →
      add_layer st (.zeroPadding padding)
        = .ok { st with change_padding := true }) ∧
    ((∃ e ∈ padding, e ≠ .int 1 ∧ e ≠ .pair 1 1) →
      add_layer st (.zeroPadding padding) = .error .unsupportedPadding) ∧
    (st.change_padding = true → border ≠ "valid" →
      consume_padding st border = .error .unsupportedBorderMode) ∧
    (st.change_padding = true →
      consume_padding st "valid"
        = .ok ({ st with change_padding := false }, "ZeroPadding")) := by
  refine ⟨?_, ?_, ?_, ?_⟩
  · intro h
    have : padding.all (fun e => e == .int 1 || e == .pair 1 1) = true := by
      simp only [List.all_eq_true, Bool.or_eq_true, beq_iff_eq]
      exact h
    simp [add_layer, this]
  · rintro ⟨e, he, h1, h2⟩
    have : padding.all (fun e => e == .int 1 || e == .pair 1 1) = false := by
      simp only [List.all_eq_false, Bool.or_eq_true, beq_iff_eq]
      exact ⟨e, he, by simp [h1, h2]⟩
    simp [add_layer, this]
  · intro hcp hb
    simp [consume_padding, hcp, hb]
  · intro hcp
    simp [consume_padding, hcp]

/-- Witness for C7 at concrete inputs: padding `((1,1),(1,1))` sets the flag
on `exState` without touching the layer list, padding `((2,2),(2,2))` raises,
a set flag with border mode `'same'` raises, and a set flag with border mode
`'valid'` is consumed. -/
theorem zero_padding_spec_witness :
    add_layer exState (.zeroPadding [.pair 1 1, .pair 1 1])
      = .ok { exState with change_padding := true } ∧
    add_layer exState (.zeroPadding [.pair 2 2, .pair 2 2])
      = .error .unsupportedPadding ∧
    consume_padding { exState with change_padding := true } "same"
      = .error .unsupportedBorderMode ∧
    consume_padding { exState with change_padding := true } "valid"
      = .ok (exState, "ZeroPadding") := by
  refine ⟨?_, ?_, ?_, ?_⟩
  · exact (zero_padding_spec exState [.pair 1 1, .pair 1 1] "valid").1
      (by intro e he; simp only [List.mem_cons, List.not_mem_nil, or_false] at he
          rcases he with h | h <;> exact Or.inr h)
  · exact (zero_padding_spec exState [.pair 2 2, .pair 2 2] "valid").2.1
      ⟨.pair 2 2, by simp, by decide, by decide⟩
  · exact (zero_padding_spec { exState with change_padding := true }
      [] "same").2.2.1 rfl (by decide)
  · exact (zero_padding_spec { exState with change_padding := true }
      [] "valid").2.2.2 rfl

/-- C8 counterexample: two consecutive Flatten layers each append a flatten
record without any error, so a build reaches a state with two pending
records; the "at most one pending at every point" half of the claim is
false. -/
theorem flatten_pending_counterexample :
    (add_layer exState (.flatten "f1")).bind
        (fun s => add_layer s (.flatten "f2")) = .ok exState2 ∧
    exState2.flatten_shapes.length = 2 := by
  constructor
  · rfl
  · rfl

/-- C8 (amended): `add_layer` on a Flatten layer always succeeds and appends
a record, so more than one record can be pending; `build_dense` invoked with
more than one pending record fails with a fatal error before constructing
any connection entry. -/
theorem build_dense_many_flatten_spec (fmt : DataFormat) (st : BuilderState)
    (name : String) (rows cols : ℕ) (weight : ℕ → ℕ → ℚ) (delay : ℚ) :
    (add_layer st (.flatten name)
      = .ok { st with flatten_shapes := st.flatten_shapes
          ++ [(name, getShapeFromLabel (lastLabel st.layers))] }) ∧
    (st.flatten_shapes.length > 1 →
      build_dense_step fmt st rows cols weight delay
        = .error .unconsumedFlattenRecord) := by
  constructor
  · rfl
  · intro h
    have h1 : ¬ st.flatten_shapes.length = 1 := by omega
    simp [build_dense_step, h1, h]

/-- Witness for C8 at a concrete input: from the state with two pending
records, a Flatten layer still appends a third record, and `build_dense`
fails with the fatal error. -/
theorem build_dense_many_flatten_spec_witness :
    add_layer exState2 (.flatten "f3")
      = .ok { exState2 with flatten_shapes := exState2.flatten_shapes
          ++ [("f3", getShapeFromLabel (lastLabel exState2.layers))] } ∧
    build_dense_step DataFormat.channels_last exState2 24 10
        (fun _ _ => 0) 1 = .error .unconsumedFlattenRecord := by
  exact ⟨(build_dense_many_flatten_spec DataFormat.channels_last exState2
      "f3" 24 10 (fun _ _ => 0) 1).1,
    (build_dense_many_flatten_spec DataFormat.channels_last exState2
      "f3" 24 10 (fun _ _ => 0) 1).2 (by decide)⟩

/-- C6 counterexample: the replay script is written with mode `'w'` in
`add_input_layer` with no overwrite check, so an existing file at the
output-script path is clobbered even though no policy permits it (the write
consults no policy at all): its old contents are gone. -/
theorem script_overwrite_counterexample :
    fs0 "model.py" = some "old" ∧
    add_input_layer_write fs0 "model.py" "generated" "model.py"
      = some "generated" ∧
    ("generated" : String) ≠ "old" := by
  exact ⟨rfl, rfl, by decide⟩

theorem guardedWrite_denied (confirmed : String → Bool) (fs : FS)
    (q c p : String) (h : confirmed p = false) :
    guardedWrite false confirmed fs q c p = fs p := by
  by_cases hpq : p = q
  · subst hpq; simp [guardedWrite, h, fsWrite]
  · by_cases hq : confirmed q <;>
      simp [guardedWrite, hq, fsWrite, hpq]

theorem save_connections_writes_denied (confirmed : String → Bool)
    (files : List (String × String)) (p : String) (h : confirmed p = false) :
    ∀ fs : FS, save_connections_writes false confirmed fs files p = fs p := by
  induction files with
  | nil => intro fs; rfl
  | cons f rest ih =>
      intro fs
      simpa [save_connections_writes] using
        (ih (guardedWrite false confirmed fs f.1 f.2)).trans
          (guardedWrite_denied confirmed fs f.1 f.2 p h)

theorem save_biases_writes_denied (confirmed : String → Bool)
    (layers : List Population) (path : String) (render : List ℚ → String)
    (p : String) (h : confirmed p = false) :
    ∀ fs : FS, save_biases_writes false confirmed fs layers path render p
      = fs p := by
  induction layers with
  | nil => intro fs; rfl
  | cons q rest ih =>
      intro fs
      have hstep :
          (if (false || confirmed (pathJoin path (q.label ++ "_biases"))) = true
           then
             if containsSub "Input".data q.label.data = true then fs
             else if q.i_offset = [] then fs
             else fsWrite fs (pathJoin path (q.label ++ "_biases"))
                    (render q.i_offset)
           else fs) p = fs p := by
        by_cases hc : confirmed (pathJoin path (q.label ++ "_biases"))
        · by_cases hin : containsSub "Input".data q.label.data
          · simp [hc, hin]
          · by_cases hio : q.i_offset = []
            · simp [hc, hin, hio]
            · have hne : p ≠ pathJoin path (q.label ++ "_biases") := by
                intro hp; rw [hp] at h; rw [h] at hc; exact Bool.false_ne_true hc
              simp [hc, hin, hio, fsWrite, hne]
        · simp [hc]
      simpa [save_biases_writes] using
        (ih _).trans hstep

/-- C6 (amended): the assembly descriptor, the connection files and the bias
files are written only subject to the overwrite policy — with `overwrite`
unset and the user not confirming a path, that path's contents are unchanged
by `save_assembly`, `save_connections` and `save_biases`; the replay script,
however, is exempt (see the counterexample: `add_input_layer` writes it with
mode `'w'` unconditionally). -/
theorem save_writes_respect_policy (confirmed : String → Bool) (fs : FS)
    (filepath content : String) (files : List (String × String))
    (layers : List Population) (path : String) (render : List ℚ → String)
    (p : String) (h : confirmed p = false) :
    save_assembly_write false confirmed fs filepath content p = fs p ∧
    save_connections_writes false confirmed fs files p = fs p ∧
    save_biases_writes false confirmed fs layers path render p = fs p := by
  exact ⟨guardedWrite_denied confirmed fs filepath content p h,
    save_connections_writes_denied confirmed files p h fs,
    save_biases_writes_denied confirmed layers path render p h fs⟩

/-- Witness for C6 (amended) at a concrete input: with the policy denying
everything, none of the three guarded save operations changes the stored
contents at `model.py`. -/
theorem save_writes_respect_policy_witness :
    save_assembly_write false (fun _ => false) fs0 "model.py" "new" "model.py"
      = some "old" ∧
    save_connections_writes false (fun _ => false) fs0
        [("model.py", "new")] "model.py" = some "old" ∧
    save_biases_writes false (fun _ => false) fs0 demoLayers "wd"
        (fun _ => "new") "model.py" = some "old" := by
  have h := save_writes_respect_policy (fun _ => false) fs0 "model.py" "new"
    [("model.py", "new")] demoLayers "wd" (fun _ => "new") "model.py" rfl
  exact ⟨h.1.trans rfl, h.2.1.trans rfl, h.2.2.trans rfl⟩

theorem lookup_map_label (f : Population → SavedData) :
    ∀ (layers : List Population) (q : Population),
      (layers.map Population.label).Nodup → q ∈ layers →
      (layers.map (fun p => (p.label, f p))).lookup q.label = some (f q) := by
  intro layers
  induction layers with
  | nil => intro q _ hq; exact absurd hq (List.not_mem_nil q)
  | cons r rest ih =>
      intro q hnd hq
      simp only [List.map_cons, List.nodup_cons] at hnd
      rcases List.mem_cons.mp hq with hq | hq
      · subst hq
        simp [List.lookup]
      · have hne : q.label ≠ r.label := by
          intro hlab
          exact hnd.1 (hlab ▸ List.mem_map_of_mem Population.label hq)
        have hbeq : (q.label == r.label) = false := beq_eq_false_iff_ne.mpr hne
        simp only [List.lookup, hbeq]
        exact ih q hnd.2 hq

/-- C2: saving the assembly descriptor and reloading it reconstructs the
population list with identical labels in identical order, identical sizes,
and, for every population other than the input layer, an `i_offset` vector
exactly equal to the saved one (the input layer's bias is not serialized and
the reloaded input population keeps the cell-type default). -/
theorem save_load_assembly_roundtrip (layers : List Population)
    (h : (layers.map Population.label).Nodup) :
    load_assembly (save_assembly layers)
      = layers.map (fun q => { q with i_offset :=
          if q.label = "InputLayer" then [] else q.i_offset }) ∧
    (load_assembly (save_assembly layers)).map Population.label
      = layers.map Population.label ∧
    (load_assembly (save_assembly layers)).map Population.size
      = layers.map Population.size ∧
    List.Forall₂ (fun p q => p.label = q.label ∧ p.size = q.size ∧
        (q.label ≠ "InputLayer" → p.i_offset = q.i_offset))
      (load_assembly (save_assembly layers)) layers := by
  have hchar : load_assembly (save_assembly layers)
      = layers.map (fun q => { q with i_offset :=
          if q.label = "InputLayer" then [] else q.i_offset }) := by
    unfold load_assembly save_assembly
    simp only [List.map_map]
    refine List.map_congr_left ?_
    intro q hq
    have hl := lookup_map_label savedOf layers q h hq
    simp only [Function.comp_apply, hl]
    by_cases hin : q.label = "InputLayer"
    · simp [savedOf, hin]
    · simp [savedOf, hin]
  refine ⟨hchar, ?_, ?_, ?_⟩
  · rw [hchar]; simp [List.map_map]
  · rw [hchar]; simp [List.map_map]
  · rw [hchar]
    rw [List.forall₂_map_left_iff]
    rw [List.forall₂_same]
    intro q _
    by_cases hin : q.label = "InputLayer" <;> simp [hin]

/-- Witness for C2 at a concrete network (input layer plus one dense layer
with bias `[1, -2]`): the reload reproduces the list exactly. -/
theorem save_load_assembly_roundtrip_witness :
    load_assembly (save_assembly demoLayers) = demoLayers := by
  have h := (save_load_assembly_roundtrip demoLayers (by decide)).1
  simpa using h

/-- C10: when a file exists at the output-script path, `SNN.load`
reconstructs the simulator handle and layer list solely from that script —
the result is `runScript` of the script's contents, independent of every
other file, so neither the assembly file nor any connection file is read —
while with the script absent the fatal assertion that each connection file
exists is evaluated (a missing one aborts the load). -/
theorem load_prefers_script {α : Type} (runScript : String → α)
    (readAssembly : String → List Population) (fs fs' : FS)
    (scriptPath path filename content acontent : String) :
    (fs scriptPath = some content →
      SNN_load runScript readAssembly fs scriptPath path filename
        = .ok (.fromScript (runScript content))) ∧
    (fs scriptPath = some content → fs' scriptPath = fs scriptPath →
      SNN_load runScript readAssembly fs' scriptPath path filename
        = SNN_load runScript readAssembly fs scriptPath path filename) ∧
    (fs scriptPath = none → fs (pathJoin path filename) = some acontent →
      (∃ p ∈ (readAssembly acontent).tail,
        fs (pathJoin path p.label) = none) →
      SNN_load runScript readAssembly fs scriptPath path filename
        = .error .connectionsMissing) := by
  refine ⟨?_, ?_, ?_⟩
  · intro h
    unfold SNN_load
    rw [h]
  · intro h h'
    have h'' : fs' scriptPath = some content := h'.trans h
    unfold SNN_load
    rw [h, h'']
  · intro hs ha ⟨p, hp, hmiss⟩
    unfold SNN_load
    rw [hs, ha]
    have : ((readAssembly acontent).tail.all
        (fun q => (fs (pathJoin path q.label)).isSome)) = false := by
      simp only [List.all_eq_false]
      exact ⟨p, hp, by simp [hmiss]⟩
    simp [this]

/-- Witness for C10 at a concrete input: a file system holding only the
replay script (no assembly, no connection files) loads successfully from the
script, and one holding only an assembly whose populations' connection files
are absent fails the connection assertion. -/
theorem load_prefers_script_witness :
    SNN_load (fun s => s) (fun _ => demoLayers) fs1 "model.py" "wd" "asm"
      = .ok (.fromScript "S") ∧
    SNN_load (fun s => s) (fun _ => demoLayers)
        (fun p => if p = "wd/asm" then some "A" else none)
        "model.py" "wd" "asm"
      = .error .connectionsMissing := by
  constructor
  · exact (load_prefers_script (fun s => s) (fun _ => demoLayers) fs1 fs1
      "model.py" "wd" "asm" "S" "A").1 rfl
  · exact (load_prefers_script (fun s => s) (fun _ => demoLayers)
      (fun p => if p = "wd/asm" then some "A" else none)
      (fun p => if p = "wd/asm" then some "A" else none)
      "model.py" "wd" "asm" "S" "A").2.2 rfl rfl
      ⟨⟨"01Dense_10", 10, "IF_curr_exp", [1, -2]⟩, by simp [demoLayers], rfl⟩

theorem charVal_digit {d : ℕ} (h : d < 10) : charVal (digit d) = d := by
  interval_cases d <;> decide

theorem digit_ne_special {d : ℕ} (h : d < 10) :
    digit d ≠ 'x' ∧ digit d ≠ '_' := by
  interval_cases d <;> exact ⟨by decide, by decide⟩

theorem natChars_digits :
    ∀ n : ℕ, ∀ c ∈ natChars n, ∃ d, d < 10 ∧ c = digit d := by
  intro n
  induction n using Nat.strong_induction_on with
  | _ n ih =>
      intro c hc
      rw [natChars] at hc
      by_cases h : n < 10
      · rw [if_pos h] at hc
        simp only [List.mem_singleton] at hc
        exact ⟨n, h, hc⟩
      · rw [if_neg h] at hc
        rcases List.mem_append.mp hc with hc | hc
        · exact ih (n / 10) (Nat.div_lt_self (by omega) (by norm_num)) c hc
        · simp only [List.mem_singleton] at hc
          exact ⟨n % 10, Nat.mod_lt n (by norm_num), hc⟩

theorem mem_natChars_ne {n : ℕ} {c : Char} (hc : c ∈ natChars n) :
    c ≠ 'x' ∧ c ≠ '_' := by
  obtain ⟨d, hd, rfl⟩ := natChars_digits n c hc
  exact digit_ne_special hd

theorem charsValFrom_append (a : ℕ) (l1 l2 : List Char) :
    charsValFrom a (l1 ++ l2) = charsValFrom (charsValFrom a l1) l2 := by
  simp [charsValFrom, List.foldl_append]

theorem charsValFrom_natChars :
    ∀ n a : ℕ, charsValFrom a (natChars n)
      = a * 10 ^ (natChars n).length + n := by
  intro n
  induction n using Nat.strong_induction_on with
  | _ n ih =>
      intro a
      rw [natChars]
      by_cases h : n < 10
      · rw [if_pos h]
        simp only [charsValFrom, List.foldl_cons, List.foldl_nil,
          List.length_singleton, pow_one]
        rw [charVal_digit h]
        ring
      · rw [if_neg h]
        rw [charsValFrom_append, List.length_append,
          ih (n / 10) (Nat.div_lt_self (by omega) (by norm_num))]
        simp only [charsValFrom, List.foldl_cons, List.foldl_nil,
          List.length_singleton]
        rw [charVal_digit (Nat.mod_lt n (by norm_num))]
        rw [pow_succ]
        have := Nat.div_add_mod n 10
        ring_nf
        omega

theorem charsVal_natChars (n : ℕ) : charsVal (natChars n) = n := by
  rw [charsVal, charsValFrom_natChars]
  simp

theorem num_str_length {n : ℕ} (h : n < 100) : (num_str n).length = 2 := by
  by_cases h9 : n > 9
  · rw [num_str, if_pos h9, natChars, if_neg (by omega)]
    rw [natChars, if_pos (by omega : n / 10 < 10)]
    rfl
  · rw [num_str, if_neg h9, natChars, if_pos (by omega)]
    rfl

theorem charsVal_num_str {n : ℕ} (h : n < 100) : charsVal (num_str n) = n := by
  by_cases h9 : n > 9
  · rw [num_str, if_pos h9, charsVal_natChars]
  · rw [num_str, if_neg h9, natChars, if_pos (by omega)]
    show charsValFrom 0 ('0' :: [digit n]) = n
    simp only [charsValFrom, List.foldl_cons, List.foldl_nil]
    rw [show charVal '0' = 0 from rfl, charVal_digit (by omega : n < 10)]
    omega

theorem mem_num_str_ne {n : ℕ} {c : Char} (hc : c ∈ num_str n) :
    c ≠ '_' := by
  rw [num_str] at hc
  by_cases h9 : n > 9
  · rw [if_pos h9] at hc
    exact (mem_natChars_ne hc).2
  · rw [if_neg h9] at hc
    rcases List.mem_cons.mp hc with hc | hc
    · subst hc; decide
    · exact (mem_natChars_ne hc).2

theorem splitOnC_not_mem {sep : Char} :
    ∀ {l : List Char}, sep ∉ l → splitOnC sep l = [l] := by
  intro l
  induction l with
  | nil => intro; rfl
  | cons c cs ih =>
      intro h
      simp only [List.mem_cons, not_or] at h
      rw [splitOnC, if_neg (fun hc : c = sep => h.1 hc.symm), ih h.2]
      rfl

theorem splitOnC_append {sep : Char} :
    ∀ {l1 : List Char} (l2 : List Char), sep ∉ l1 →
      splitOnC sep (l1 ++ sep :: l2) = l1 :: splitOnC sep l2 := by
  intro l1
  induction l1 with
  | nil =>
      intro l2 _
      rw [List.nil_append, splitOnC, if_pos rfl]
  | cons c cs ih =>
      intro l2 h
      simp only [List.mem_cons, not_or] at h
      rw [List.cons_append, splitOnC,
        if_neg (fun hc : c = sep => h.1 hc.symm), ih l2 h.2]
      rfl

theorem mem_shapeSeg (os : List ℕ) :
    ∀ c ∈ shapeSeg os, c = 'x' ∨ (c ≠ 'x' ∧ c ≠ '_') := by
  intro c hc
  rw [shapeSeg] at hc
  by_cases h2 : os.length = 2
  · rw [if_pos h2] at hc
    exact Or.inr (mem_natChars_ne hc)
  · rw [if_neg h2] at hc
    rcases List.mem_append.mp hc with hc | hc
    · exact Or.inr (mem_natChars_ne hc)
    · rcases List.mem_cons.mp hc with hc | hc
      · exact Or.inl hc
      · rcases List.mem_append.mp hc with hc | hc
        · exact Or.inr (mem_natChars_ne hc)
        · rcases List.mem_cons.mp hc with hc | hc
          · exact Or.inl hc
          · exact Or.inr (mem_natChars_ne hc)

theorem not_underscore_mem_shapeSeg (os : List ℕ) : '_' ∉ shapeSeg os := by
  intro h
  rcases mem_shapeSeg os '_' h with h' | h'
  · exact absurd h' (by decide)
  · exact h'.2 rfl

theorem parse_shapeSeg (os : List ℕ) :
    (splitOnC 'x' (shapeSeg os)).map charsVal
      = if os.length = 2 then [os.getD 1 0]
        else [os.getD 1 0, os.getD 2 0, os.getD 3 0] := by
  rw [shapeSeg]
  by_cases h2 : os.length = 2
  · rw [if_pos h2, if_pos h2]
    rw [splitOnC_not_mem (fun hm => (mem_natChars_ne hm).1 rfl)]
    simp [charsVal_natChars]
  · rw [if_neg h2, if_neg h2]
    rw [splitOnC_append _ (fun hm => (mem_natChars_ne hm).1 rfl)]
    rw [splitOnC_append _ (fun hm => (mem_natChars_ne hm).1 rfl)]
    rw [splitOnC_not_mem (fun hm => (mem_natChars_ne hm).1 rfl)]
    simp [charsVal_natChars]

theorem parse_drop {os : List ℕ} (h : os.length = 2 ∨ os.length = 4) :
    (if os.length = 2 then [os.getD 1 0]
     else [os.getD 1 0, os.getD 2 0, os.getD 3 0]) = os.drop 1 := by
  rcases h with h | h
  · obtain ⟨a, b, rfl⟩ := List.length_eq_two.mp h
    simp
  · match os, h with
    | [a, b, c, d], _ => simp

theorem get_shape_layerLabel {t : List Char} (ht : '_' ∉ t)
    (n : ℕ) (os : List ℕ) :
    get_shape_from_label (layerLabel n t os)
      = (splitOnC 'x' (shapeSeg os)).map charsVal := by
  have hpre : '_' ∉ num_str n ++ t := by
    intro hm
    rcases List.mem_append.mp hm with hm | hm
    · exact mem_num_str_ne hm rfl
    · exact ht hm
  have hlab : layerLabel n t os
      = (num_str n ++ t) ++ '_' :: shapeSeg os := by
    rw [layerLabel, shape_string, List.append_assoc]
  rw [get_shape_from_label, hlab, splitOnC_append _ hpre,
    splitOnC_not_mem (not_underscore_mem_shapeSeg os)]
  rfl

theorem append_sep_inj {sep : Char} :
    ∀ {t1 t2 r1 r2 : List Char}, sep ∉ t1 → sep ∉ t2 →
      t1 ++ sep :: r1 = t2 ++ sep :: r2 → t1 = t2 ∧ r1 = r2 := by
  intro t1
  induction t1 with
  | nil =>
      intro t2 r1 r2 _ h2 heq
      cases t2 with
      | nil => simpa using heq
      | cons c cs =>
          exfalso
          simp only [List.nil_append, List.cons_append, List.cons.injEq] at heq
          simp only [List.mem_cons, not_or] at h2
          exact h2.1 heq.1
  | cons c cs ih =>
      intro t2 r1 r2 h1 h2 heq
      simp only [List.mem_cons, not_or] at h1
      cases t2 with
      | nil =>
          exfalso
          simp only [List.cons_append, List.nil_append, List.cons.injEq] at heq
          exact h1.1 heq.1.symm
      | cons c' cs' =>
          simp only [List.cons_append, List.cons.injEq] at heq
          simp only [List.mem_cons, not_or] at h2
          obtain ⟨hteq, hreq⟩ := ih h1.2 h2.2 heq.2
          exact ⟨by rw [heq.1, hteq], hreq⟩

/-- C5: for indices below 100 and output shapes of length 2 or 4, the
generated label is the two-digit zero-padded index, the kind name, then an
underscore and the non-batch shape joined by `'x'` (index 2, kind `Conv2D`,
shape `[16, 32, 32]` gives `02Conv2D_16x32x32`); the label determines
(index, kind, non-batch shape) uniquely; and `get_shape_from_label` recovers
exactly the non-batch shape. -/
theorem label_spec (n1 n2 : ℕ) (t1 t2 : List Char) (os1 os2 : List ℕ)
    (hn1 : n1 < 100) (hn2 : n2 < 100)
    (ht1 : '_' ∉ t1) (ht2 : '_' ∉ t2)
    (hl1 : os1.length = 2 ∨ os1.length = 4)
    (hl2 : os2.length = 2 ∨ os2.length = 4) :
    layerLabel 2 ("Conv2D".data) [1, 16, 32, 32] = "02Conv2D_16x32x32".data ∧
    get_shape_from_label (layerLabel n1 t1 os1) = os1.drop 1 ∧
    (layerLabel n1 t1 os1 = layerLabel n2 t2 os2 →
      n1 = n2 ∧ t1 = t2 ∧ os1.drop 1 = os2.drop 1) := by
  refine ⟨?_, ?_, ?_⟩
  · simp [layerLabel, num_str, shape_string, shapeSeg, natChars, digit]
  · rw [get_shape_layerLabel ht1 n1 os1, parse_shapeSeg, parse_drop hl1]
  · intro heq
    have hlen1 := num_str_length hn1
    have hlen2 := num_str_length hn2
    have hn : n1 = n2 := by
      have e := congrArg (List.take 2) heq
      simp only [layerLabel, List.append_assoc] at e
      rw [List.take_left' hlen1, List.take_left' hlen2] at e
      calc n1 = charsVal (num_str n1) := (charsVal_num_str hn1).symm
        _ = charsVal (num_str n2) := by rw [e]
        _ = n2 := charsVal_num_str hn2
    have hrest : t1 ++ '_' :: shapeSeg os1 = t2 ++ '_' :: shapeSeg os2 := by
      have e := congrArg (List.drop 2) heq
      simp only [layerLabel, List.append_assoc] at e
      rw [List.drop_left' hlen1, List.drop_left' hlen2] at e
      simpa [shape_string] using e
    obtain ⟨hteq, hseq⟩ := append_sep_inj ht1 ht2 hrest
    refine ⟨hn, hteq, ?_⟩
    rw [← parse_drop hl1, ← parse_drop hl2, ← parse_shapeSeg, ← parse_shapeSeg,
      hseq]

/-- Witness for C5 at concrete inputs: the example label from the spec, and
shape recovery on it. -/
theorem label_spec_witness :
    layerLabel 2 ("Conv2D".data) [1, 16, 32, 32] = "02Conv2D_16x32x32".data ∧
    get_shape_from_label ("02Conv2D_16x32x32".data) = [16, 32, 32] := by
  have h := label_spec 2 2 ("Conv2D".data) ("Conv2D".data)
    [1, 16, 32, 32] [1, 16, 32, 32] (by norm_num) (by norm_num)
    (by decide) (by decide) (by norm_num) (by norm_num)
  exact ⟨h.1, by rw [← h.1]; simpa using h.2.1⟩

end SNNToolbox
